import Mathlib

/-!
Shallow embedding of the `bgl-maps` crate: a bounded 2D grid room
(`src/grid_room/mod.rs`) that places entities on cells and moves them along
axis-aligned paths, together with the supporting value types
(`src/utils.rs`, `src/error.rs`).

Modelling conventions:
- `usize` arithmetic is modelled on `Nat` with explicit wrapping modulo
  `2 ^ 64` (release-build semantics of Rust's unchecked `+` / `-`).
- Panics reachable in the Rust code (slice indexing with a wrapped index in
  `move_entity`, the `unwrap` calls in `swap`) are modelled as an explicit
  `panic` outcome.
- `std::collections::BTreeMap<String, Position>` is modelled as a
  key-sorted association list; `grid::Grid<Option<&Entity>>` as a row-major
  cell list with stored row/column counts and bounds-checked access.
-/

namespace BglMaps

/-- The modulus of `usize` on a 64-bit target. -/
def USIZE : Nat := 2 ^ 64

/-- Wrapping `usize` addition (release-build semantics). -/
def uadd (a b : Nat) : Nat := (a + b) % USIZE

/-- Wrapping `usize` subtraction (release-build semantics); both operands
are assumed below `USIZE`, as every Rust `usize` value is. -/
def usub (a b : Nat) : Nat := (a + USIZE - b) % USIZE

/-- The list of values produced by the Rust iterator `a..b`. -/
def rustRange (a b : Nat) : List Nat := List.range' a (b - a)

/-- Modelled from the spec: the external `Entity` identity type
(`Entity { name: string }`, §6), uniquely named, compared by name; its
definition (`src/entity.rs`) is not part of the provided sources. -/
structure Entity where
  name : String
deriving DecidableEq

/-- `Position` from `src/utils.rs`: `x` = column, `y` = row. -/
structure Position where
  x : Nat
  y : Nat
deriving DecidableEq

/-- `Size` from `src/utils.rs`. -/
structure Size where
  width : Nat
  height : Nat
deriving DecidableEq

/-- `Direction` from `src/utils.rs`. -/
inductive Direction
  | up
  | down
  | left
  | right
deriving DecidableEq

/-- `Movement` from `src/utils.rs`. -/
structure Movement where
  distance : Nat
  direction : Direction
deriving DecidableEq

/-- `MapError` from `src/error.rs`. -/
inductive MapError
  | outOfBounds
deriving DecidableEq

/-- `MoveResult` from `src/utils.rs`; `collision` carries the entity
references placed into the vector. -/
inductive MoveResult
  | success
  | failure
  | collision (entities : List Entity)
deriving DecidableEq

/-- Modelled from the spec: the Grid Store (§4.1), i.e. the external
`grid::Grid<Option<&Entity>>` container — a fixed-size 2D array stored
row-major with bounds-checked access by `(row, col)`. -/
structure Grid where
  rows : Nat
  cols : Nat
  cells : List (Option Entity)
deriving DecidableEq

/-- `Grid::new(rows, cols)`: all cells empty. -/
def Grid.new (rows cols : Nat) : Grid :=
  ⟨rows, cols, List.replicate (rows * cols) none⟩

/-- `Grid::get(row, col)`: `none` when out of bounds, otherwise the cell. -/
def Grid.get (g : Grid) (row col : Nat) : Option (Option Entity) :=
  if row < g.rows ∧ col < g.cols then some (g.cells.getD (row * g.cols + col) none)
  else none

/-- Writing through `Grid::get_mut(row, col)`; callers only invoke it after
a successful bounds check. -/
def Grid.set (g : Grid) (row col : Nat) (v : Option Entity) : Grid :=
  ⟨g.rows, g.cols, g.cells.set (row * g.cols + col) v⟩

/-- Lexicographic order on character lists (an executable rendering of the
string order a `BTreeMap<String, _>` keeps its keys in). -/
def strLtAux : List Char → List Char → Bool
  | _, [] => false
  | [], _ :: _ => true
  | a :: as, b :: bs =>
    if Nat.blt a.toNat b.toNat then true
    else if Nat.blt b.toNat a.toNat then false
    else strLtAux as bs

/-- Lexicographic order on strings. -/
def strLt (a b : String) : Bool := strLtAux a.data b.data

/-- Lookup in the `BTreeMap<String, Position>` model. -/
def mapGet (k : String) : List (String × Position) → Option Position
  | [] => none
  | (k', v') :: rest => if k = k' then some v' else mapGet k rest

/-- Insert in the `BTreeMap<String, Position>` model, keeping keys sorted. -/
def mapInsert (k : String) (v : Position) : List (String × Position) → List (String × Position)
  | [] => [(k, v)]
  | (k', v') :: rest =>
    if strLt k k' then (k, v) :: (k', v') :: rest
    else if k = k' then (k, v) :: rest
    else (k', v') :: mapInsert k v rest

/-- `GridRoom` from `src/grid_room/mod.rs`. -/
structure GridRoom where
  name : String
  grid : Grid
  mobile_entities : List (String × Position)
deriving DecidableEq

/-- `GridRoom::new`: note the grid is `height` rows by `width` columns. -/
def GridRoom.new (name : String) (size : Size) : GridRoom :=
  ⟨name, Grid.new size.height size.width, []⟩

/-- `GridRoom::add_entity`: bounds-check the cell at `(y, x)`, write the
entity into it, and record mobile entities in the index. The room is
returned alongside the `Result` (unchanged on the error path, as in the
source, which returns before any mutation). -/
def addEntity (room : GridRoom) (entity : Entity) (position : Position)
    (is_static : Bool) : Except MapError Unit × GridRoom :=
  match room.grid.get position.y position.x with
  | none => (.error .outOfBounds, room)
  | some _ =>
    let g := room.grid.set position.y position.x (some entity)
    if is_static then (.ok (), { room with grid := g })
    else
      (.ok (),
        { room with
            grid := g
            mobile_entities := mapInsert entity.name position room.mobile_entities })

/-- Outcome of `GridRoom::swap`: a panic (from its `unwrap` calls), an
error, or the updated room. -/
inductive SwapOut
  | panic
  | error (e : MapError)
  | ok (room : GridRoom)
deriving DecidableEq

/-- `GridRoom::swap(start, end)`: reads the occupant at `start`
(`unwrap`-panicking when `start` is out of bounds or the cell is empty),
writes it into `end` (erroring with `OutOfBounds` when `end` is out of
bounds, before any mutation), clears `start`, and re-keys the occupant in
the mobile-entity index. -/
def swap (room : GridRoom) (start end_ : Position) : SwapOut :=
  match room.grid.get start.y start.x with
  | none => .panic
  | some none => .panic
  | some (some entity) =>
    match room.grid.get end_.y end_.x with
    | none => .error .outOfBounds
    | some _ =>
      let g := (room.grid.set end_.y end_.x (some entity)).set start.y start.x none
      .ok
        { room with
            grid := g
            mobile_entities := mapInsert entity.name end_ room.mobile_entities }

/-- Outcome of `GridRoom::move_entity`: a panic, an error, or an `Ok`
carrying a `MoveResult`. -/
inductive MoveOutcome
  | panic
  | error (e : MapError)
  | ok (r : MoveResult)
deriving DecidableEq

/-- The `(end, traversed_tiles)` pair computed by `move_entity` for each
direction. The `right` arm reproduces the source's range bound
`start.x..start.y + movement.distance` verbatim (with `start.y`, as
written in `src/grid_room/mod.rs` line 96). -/
def computeMove (start : Position) (movement : Movement) : Position × List Position :=
  match movement.direction with
  | .up =>
    (⟨start.x, uadd start.y movement.distance⟩,
      (rustRange start.y (uadd start.y movement.distance)).map
        (fun yy => ⟨start.x, yy + 1⟩))
  | .down =>
    (⟨start.x, usub start.y movement.distance⟩,
      ((rustRange (usub start.y movement.distance) start.y).reverse).map
        (fun yy => ⟨start.x, yy⟩))
  | .left =>
    (⟨usub start.x movement.distance, start.y⟩,
      ((rustRange (usub start.x movement.distance) start.x).reverse).map
        (fun xx => ⟨xx, start.y⟩))
  | .right =>
    (⟨uadd start.x movement.distance, start.y⟩,
      (rustRange start.x (uadd start.y movement.distance)).map
        (fun xx => ⟨xx + 1, start.y⟩))

/-- The per-tile walk of `move_entity` (the `for tile_index in ..` loop,
followed by the final `swap(start, end)` when the loop completes). `prev`
holds `traversed_tiles[tile_index - 1]`; when it is `none` at a collision
the slice index `0 - 1` wraps and the indexing panics, exactly as in the
source. -/
def moveWalk (room : GridRoom) (entity : Entity) (start endPos : Position) :
    Option Position → List Position → MoveOutcome × GridRoom
  | _, [] =>
    match swap room start endPos with
    | .panic => (.panic, room)
    | .error e => (.error e, room)
    | .ok room' => (.ok .success, room')
  | prev, tile :: rest =>
    match room.grid.get tile.y tile.x with
    | some (some occupant) =>
      match prev with
      | none => (.panic, room)
      | some p =>
        match swap room start p with
        | .panic => (.panic, room)
        | .error e => (.error e, room)
        | .ok room' => (.ok (.collision [entity, occupant]), room')
    | some none => moveWalk room entity start endPos (some tile) rest
    | none =>
      match prev with
      | none => (.error .outOfBounds, room)
      | some p =>
        match swap room start p with
        | .panic => (.panic, room)
        | .error e => (.error e, room)
        | .ok room' => (.ok .failure, room')

/-- `GridRoom::move_entity`: look up the entity in the mobile index
(erroring with `OutOfBounds` when absent), compute the traversed tiles,
and walk them. -/
def moveEntity (room : GridRoom) (entity : Entity) (movement : Movement) :
    MoveOutcome × GridRoom :=
  match mapGet entity.name room.mobile_entities with
  | none => (.error .outOfBounds, room)
  | some start =>
    let ec := computeMove start movement
    moveWalk room entity start ec.1 none ec.2

/-! Well-formedness and the index/grid consistency invariant. -/

/-- Keys of the association list strictly increase, as in a `BTreeMap`. -/
def keysSorted (l : List (String × Position)) : Prop :=
  l.Pairwise (fun a b => strLt a.1 b.1 = true)

/-- Structural well-formedness of the grid: the backing vector has exactly
`rows * cols` cells, and the dimensions are `usize` values. -/
def Grid.wf (g : Grid) : Prop :=
  g.cells.length = g.rows * g.cols ∧ g.rows < USIZE ∧ g.cols < USIZE

/-- Structural well-formedness of a room. -/
def GridRoom.wf (room : GridRoom) : Prop :=
  room.grid.wf ∧ keysSorted room.mobile_entities

/-- Index/grid consistency (spec §3 Invariants): every recorded mobile
entity occupies exactly the cell at its recorded position. -/
def consistentRoom (room : GridRoom) : Prop :=
  ∀ kp ∈ room.mobile_entities,
    room.grid.get kp.2.y kp.2.x = some (some ⟨kp.1⟩) ∧
    ∀ r, r < room.grid.rows → ∀ c, c < room.grid.cols →
      room.grid.get r c = some (some ⟨kp.1⟩) → r = kp.2.y ∧ c = kp.2.x

instance decEqExceptMapErrorUnit : DecidableEq (Except MapError Unit) := fun a b =>
  match a, b with
  | .error .outOfBounds, .error .outOfBounds => isTrue rfl
  | .ok (), .ok () => isTrue rfl
  | .error _, .ok _ => isFalse (fun h => Except.noConfusion h)
  | .ok _, .error _ => isFalse (fun h => Except.noConfusion h)

instance decGridWf (g : Grid) : Decidable g.wf := by
  unfold Grid.wf
  infer_instance

instance decKeysSorted (l : List (String × Position)) : Decidable (keysSorted l) := by
  unfold keysSorted
  infer_instance

instance decRoomWf (room : GridRoom) : Decidable room.wf := by
  unfold GridRoom.wf
  infer_instance

instance decConsistentRoom (room : GridRoom) : Decidable (consistentRoom room) := by
  unfold consistentRoom
  infer_instance

/-! Order lemmas for `strLt`. -/

theorem strLtAux_irrefl : ∀ l : List Char, strLtAux l l = false := by
  intro l
  induction l with
  | nil => rfl
  | cons a as ih =>
    simp only [strLtAux, Nat.blt_eq, Nat.lt_irrefl, if_false, ih]

theorem strLtAux_trans : ∀ {a b c : List Char},
    strLtAux a b = true → strLtAux b c = true → strLtAux a c = true := by
  intro a
  induction a with
  | nil =>
    intro b c hab hbc
    cases b with
    | nil => exact hbc
    | cons y ys =>
      cases c with
      | nil => exact absurd hbc (by simp [strLtAux])
      | cons z zs => rfl
  | cons x xs ih =>
    intro b c hab hbc
    cases b with
    | nil => exact absurd hab (by simp [strLtAux])
    | cons y ys =>
      cases c with
      | nil => exact absurd hbc (by simp [strLtAux])
      | cons z zs =>
        simp only [strLtAux, Nat.blt_eq] at hab hbc ⊢
        by_cases hxy : x.toNat < y.toNat
        · by_cases hyz : y.toNat < z.toNat
          · rw [if_pos (Nat.lt_trans hxy hyz)]
          · rw [if_neg hyz] at hbc
            by_cases hzy : z.toNat < y.toNat
            · rw [if_pos hzy] at hbc
              exact absurd hbc (by simp)
            · have hyz' : y.toNat = z.toNat := by omega
              rw [if_pos (hyz' ▸ hxy)]
        · rw [if_neg hxy] at hab
          by_cases hyx : y.toNat < x.toNat
          · rw [if_pos hyx] at hab
            exact absurd hab (by simp)
          · have hxy' : x.toNat = y.toNat := by omega
            rw [if_neg hyx] at hab
            by_cases hyz : y.toNat < z.toNat
            · rw [if_pos (hxy' ▸ hyz)]
            · rw [if_neg hyz] at hbc
              by_cases hzy : z.toNat < y.toNat
              · rw [if_pos hzy] at hbc
                exact absurd hbc (by simp)
              · rw [if_neg hzy] at hbc
                rw [if_neg (hxy' ▸ hyz), if_neg (fun hh => hzy (hxy' ▸ hh))]
                exact ih hab hbc

theorem strLtAux_total : ∀ {a b : List Char},
    strLtAux a b = false → strLtAux b a = false → a = b := by
  intro a
  induction a with
  | nil =>
    intro b hab _
    cases b with
    | nil => rfl
    | cons y ys => exact absurd hab (by simp [strLtAux])
  | cons x xs ih =>
    intro b hab hba
    cases b with
    | nil => exact absurd hba (by simp [strLtAux])
    | cons y ys =>
      simp only [strLtAux, Nat.blt_eq] at hab hba
      by_cases hxy : x.toNat < y.toNat
      · rw [if_pos hxy] at hab
        exact absurd hab (by simp)
      · by_cases hyx : y.toNat < x.toNat
        · rw [if_pos hyx] at hba
          exact absurd hba (by simp)
        · rw [if_neg hxy, if_neg hyx] at hab
          rw [if_neg hyx, if_neg hxy] at hba
          have hx : x = y := Char.eq_of_val_eq (by
            have hn : x.toNat = y.toNat := by omega
            exact UInt32.ext hn)
          rw [hx, ih hab hba]

theorem strLt_trans {a b c : String} (h1 : strLt a b = true) (h2 : strLt b c = true) :
    strLt a c = true := strLtAux_trans h1 h2

theorem strLt_irrefl (a : String) : strLt a a = false := strLtAux_irrefl a.data

theorem strLt_asymm {a b : String} (h : strLt a b = true) : strLt b a = false := by
  cases hba : strLt b a with
  | false => rfl
  | true => exact absurd (strLt_trans h hba) (by rw [strLt_irrefl a]; simp)

theorem strLt_total {a b : String} (h1 : strLt a b = false) (h2 : strLt b a = false) :
    a = b := by
  cases a with
  | mk da =>
    cases b with
    | mk db =>
      rw [show da = db from strLtAux_total h1 h2]

theorem strLt_of_ne_of_not_lt {a b : String} (h1 : strLt a b = false) (h2 : a ≠ b) :
    strLt b a = true := by
  cases hba : strLt b a with
  | true => rfl
  | false => exact absurd (strLt_total h1 hba) h2

/-! Lemmas about the sorted association-list map. -/

theorem mapGet_insert_self (k : String) (v : Position) (l : List (String × Position)) :
    mapGet k (mapInsert k v l) = some v := by
  induction l with
  | nil => simp [mapInsert, mapGet]
  | cons hd tl ih =>
    obtain ⟨k', v'⟩ := hd
    cases h1 : strLt k k'
    · by_cases h2 : k = k'
      · subst h2
        simp [mapInsert, h1, mapGet]
      · simp [mapInsert, h1, h2, mapGet, ih]
    · simp [mapInsert, h1, mapGet]

theorem mapGet_insert_ne (k n : String) (v : Position) (l : List (String × Position))
    (h : n ≠ k) : mapGet n (mapInsert k v l) = mapGet n l := by
  induction l with
  | nil => simp [mapInsert, mapGet, h]
  | cons hd tl ih =>
    obtain ⟨k', v'⟩ := hd
    cases h1 : strLt k k'
    · by_cases h2 : k = k'
      · subst h2
        simp [mapInsert, h1, mapGet, h]
      · by_cases h3 : n = k'
        · simp [mapInsert, h1, h2, mapGet, h3]
        · simp [mapInsert, h1, h2, mapGet, h3, ih]
    · simp [mapInsert, h1, mapGet, h]

theorem mapGet_mem {k : String} {v : Position} {l : List (String × Position)}
    (h : mapGet k l = some v) : (k, v) ∈ l := by
  induction l with
  | nil => simp [mapGet] at h
  | cons hd tl ih =>
    obtain ⟨k', v'⟩ := hd
    by_cases h1 : k = k'
    · subst h1
      simp [mapGet] at h
      simp [h]
    · simp [mapGet, h1] at h
      exact List.mem_cons_of_mem _ (ih h)

theorem mapGet_eq_none_forall {k : String} {l : List (String × Position)}
    (h : mapGet k l = none) : ∀ kp ∈ l, kp.1 ≠ k := by
  induction l with
  | nil => simp
  | cons hd tl ih =>
    obtain ⟨k', v'⟩ := hd
    by_cases h1 : k = k'
    · simp [mapGet, h1] at h
    · simp [mapGet, h1] at h
      intro kp hkp
      rcases List.mem_cons.mp hkp with h2 | h2
      · subst h2
        exact fun hh => h1 hh.symm
      · exact ih h kp h2

theorem mem_mapInsert {k a : String} {v b : Position} {l : List (String × Position)}
    (h : (a, b) ∈ mapInsert k v l) : (a = k ∧ b = v) ∨ (a, b) ∈ l := by
  induction l with
  | nil =>
    simp [mapInsert] at h
    exact Or.inl h
  | cons hd tl ih =>
    obtain ⟨k', v'⟩ := hd
    cases h1 : strLt k k'
    · by_cases h2 : k = k'
      · simp only [mapInsert, h1, Bool.false_eq_true, if_false, if_pos h2] at h
        rcases List.mem_cons.mp h with h3 | h3
        · exact Or.inl (Prod.mk.injEq .. ▸ h3)
        · exact Or.inr (List.mem_cons_of_mem _ h3)
      · simp only [mapInsert, h1, Bool.false_eq_true, if_false, if_neg h2] at h
        rcases List.mem_cons.mp h with h3 | h3
        · exact Or.inr (List.mem_cons.mpr (Or.inl h3))
        · rcases ih h3 with h4 | h4
          · exact Or.inl h4
          · exact Or.inr (List.mem_cons_of_mem _ h4)
    · simp only [mapInsert, h1, if_true] at h
      rcases List.mem_cons.mp h with h2 | h2
      · exact Or.inl (Prod.mk.injEq .. ▸ h2)
      · exact Or.inr h2

theorem mem_mapInsert_sorted {k a : String} {v b : Position} {l : List (String × Position)}
    (hs : keysSorted l) (h : (a, b) ∈ mapInsert k v l) :
    (a = k ∧ b = v) ∨ ((a, b) ∈ l ∧ a ≠ k) := by
  induction l with
  | nil =>
    simp [mapInsert] at h
    exact Or.inl h
  | cons hd tl ih =>
    obtain ⟨k', v'⟩ := hd
    have hlt : ∀ kp ∈ tl, strLt k' kp.1 = true := by
      intro kp hkp
      exact (List.pairwise_cons.mp hs).1 kp hkp
    have hs' : keysSorted tl := (List.pairwise_cons.mp hs).2
    cases h1 : strLt k k'
    · by_cases h2 : k = k'
      · subst h2
        simp only [mapInsert, h1, Bool.false_eq_true, if_false, if_pos rfl] at h
        rcases List.mem_cons.mp h with h3 | h3
        · exact Or.inl (Prod.mk.injEq .. ▸ h3)
        · refine Or.inr ⟨List.mem_cons_of_mem _ h3, ?_⟩
          have hk := hlt _ h3
          intro hh
          subst hh
          rw [strLt_irrefl] at hk
          exact absurd hk (by simp)
      · simp only [mapInsert, h1, Bool.false_eq_true, if_false, if_neg h2] at h
        rcases List.mem_cons.mp h with h3 | h3
        · have ha : a = k' := by
            have hf := congrArg Prod.fst h3
            simpa using hf
          refine Or.inr ⟨List.mem_cons.mpr (Or.inl h3), ?_⟩
          subst ha
          exact fun hh => h2 hh.symm
        · rcases ih hs' h3 with h4 | h4
          · exact Or.inl h4
          · exact Or.inr ⟨List.mem_cons_of_mem _ h4.1, h4.2⟩
    · simp only [mapInsert, h1, if_true] at h
      rcases List.mem_cons.mp h with h2 | h2
      · exact Or.inl (Prod.mk.injEq .. ▸ h2)
      · refine Or.inr ⟨h2, ?_⟩
        rcases List.mem_cons.mp h2 with h3 | h3
        · have ha : a = k' := by
            have hf := congrArg Prod.fst h3
            simpa using hf
          subst ha
          intro hh
          subst hh
          rw [strLt_irrefl] at h1
          exact absurd h1 (by simp)
        · have hk := hlt _ h3
          intro hh
          subst hh
          have := strLt_trans h1 hk
          rw [strLt_irrefl] at this
          exact absurd this (by simp)

theorem keysSorted_insert {k : String} {v : Position} {l : List (String × Position)}
    (hs : keysSorted l) : keysSorted (mapInsert k v l) := by
  induction l with
  | nil => simp [mapInsert, keysSorted]
  | cons hd tl ih =>
    obtain ⟨k', v'⟩ := hd
    have hlt : ∀ kp ∈ tl, strLt k' kp.1 = true := by
      intro kp hkp
      exact (List.pairwise_cons.mp hs).1 kp hkp
    have hs' : keysSorted tl := (List.pairwise_cons.mp hs).2
    cases h1 : strLt k k'
    · by_cases h2 : k = k'
      · subst h2
        simp only [mapInsert, h1, Bool.false_eq_true, if_false, if_pos rfl]
        exact List.pairwise_cons.mpr ⟨fun kp hkp => hlt _ hkp, hs'⟩
      · simp only [mapInsert, h1, Bool.false_eq_true, if_false, if_neg h2]
        have hk'k : strLt k' k = true := strLt_of_ne_of_not_lt h1 h2
        refine List.pairwise_cons.mpr ⟨?_, ih hs'⟩
        intro kp hkp
        obtain ⟨a, b⟩ := kp
        rcases mem_mapInsert hkp with h3 | h3
        · simpa [h3.1] using hk'k
        · exact hlt _ h3
    · simp only [mapInsert, h1, if_true]
      refine List.pairwise_cons.mpr ⟨?_, hs⟩
      intro kp hkp
      rcases List.mem_cons.mp hkp with h2 | h2
      · simp [h2, h1]
      · exact strLt_trans h1 (hlt _ h2)

/-! Lemmas about the grid store. -/

theorem rowcol_index_inj {r c r' c' n : Nat} (hc : c < n) (hc' : c' < n)
    (h : r * n + c = r' * n + c') : r = r' ∧ c = c' := by
  rw [Nat.mul_comm r n, Nat.mul_comm r' n] at h
  have hmod : (n * r + c) % n = (n * r' + c') % n := by rw [h]
  have hdiv : (n * r + c) / n = (n * r' + c') / n := by rw [h]
  rw [Nat.mul_add_mod, Nat.mul_add_mod, Nat.mod_eq_of_lt hc, Nat.mod_eq_of_lt hc'] at hmod
  subst hmod
  have hn : 0 < n := Nat.lt_of_le_of_lt (Nat.zero_le _) hc
  rw [Nat.mul_add_div hn, Nat.mul_add_div hn] at hdiv
  exact ⟨by omega, rfl⟩

theorem index_lt_length {r c rows cols : Nat} (hr : r < rows) (hc : c < cols) :
    r * cols + c < rows * cols := by
  calc r * cols + c < r * cols + cols := Nat.add_lt_add_left hc _
    _ = (r + 1) * cols := by rw [Nat.succ_mul]
    _ ≤ rows * cols := Nat.mul_le_mul_right _ hr

theorem Grid.get_bounds {g : Grid} {r c : Nat} {o : Option Entity}
    (h : g.get r c = some o) : r < g.rows ∧ c < g.cols := by
  by_cases hb : r < g.rows ∧ c < g.cols
  · exact hb
  · simp [Grid.get, hb] at h

theorem Grid.get_of_bounds {g : Grid} {r c : Nat} (hr : r < g.rows) (hc : c < g.cols) :
    g.get r c = some (g.cells.getD (r * g.cols + c) none) := by
  simp [Grid.get, hr, hc]

theorem Grid.set_rows (g : Grid) (r c : Nat) (v : Option Entity) :
    (g.set r c v).rows = g.rows := rfl

theorem Grid.set_cols (g : Grid) (r c : Nat) (v : Option Entity) :
    (g.set r c v).cols = g.cols := rfl

theorem Grid.set_length (g : Grid) (r c : Nat) (v : Option Entity) :
    (g.set r c v).cells.length = g.cells.length := by
  simp [Grid.set]

theorem Grid.get_set_self {g : Grid} (hl : g.cells.length = g.rows * g.cols)
    {r c : Nat} (hr : r < g.rows) (hc : c < g.cols) (v : Option Entity) :
    (g.set r c v).get r c = some v := by
  have hidx : r * g.cols + c < g.cells.length := by
    rw [hl]
    exact index_lt_length hr hc
  simp only [Grid.get, Grid.set, if_pos (And.intro hr hc)]
  rw [List.getD_eq_getElem?_getD, List.getElem?_set]
  simp [hidx]

theorem Grid.get_set_ne {g : Grid} {r c r' c' : Nat} (v : Option Entity)
    (hc : c < g.cols) (h : ¬(r' = r ∧ c' = c)) :
    (g.set r c v).get r' c' = g.get r' c' := by
  simp only [Grid.get, Grid.set]
  by_cases hb : r' < g.rows ∧ c' < g.cols
  · simp only [if_pos hb]
    rw [List.getD_eq_getElem?_getD, List.getD_eq_getElem?_getD, List.getElem?_set]
    have hne : r * g.cols + c ≠ r' * g.cols + c' := by
      intro hh
      exact h ⟨(rowcol_index_inj hc hb.2 hh).1.symm, (rowcol_index_inj hc hb.2 hh).2.symm⟩
    simp [hne]
  · simp [if_neg hb]

/-! Characterization of `swap` and of the per-tile walk. -/

/-- The room produced by a successful `swap` moving occupant `X` from
`start` to `end_`. -/
def swapRoom (room : GridRoom) (X : Entity) (start end_ : Position) : GridRoom :=
  { room with
      grid := (room.grid.set end_.y end_.x (some X)).set start.y start.x none
      mobile_entities := mapInsert X.name end_ room.mobile_entities }

theorem swap_ok_elim {room room' : GridRoom} {start end_ : Position}
    (h : swap room start end_ = .ok room') :
    ∃ X c, room.grid.get start.y start.x = some (some X) ∧
      room.grid.get end_.y end_.x = some c ∧ room' = swapRoom room X start end_ := by
  unfold swap at h
  cases hst : room.grid.get start.y start.x with
  | none => rw [hst] at h; exact absurd h (by simp)
  | some o =>
    cases o with
    | none => rw [hst] at h; exact absurd h (by simp)
    | some X =>
      rw [hst] at h
      cases hend : room.grid.get end_.y end_.x with
      | none => rw [hend] at h; exact absurd h (by simp)
      | some c =>
        rw [hend] at h
        simp only [SwapOut.ok.injEq] at h
        exact ⟨X, c, rfl, rfl, h.symm⟩

theorem moveWalk_ok_elim {room room' : GridRoom} {e : Entity}
    {start endPos : Position} {r : MoveResult} :
    ∀ {tiles : List Position} {prev : Option Position},
    moveWalk room e start endPos prev tiles = (.ok r, room') →
    (∀ p, prev = some p → room.grid.get p.y p.x = some none) →
    ∃ c, swap room start c = .ok room' ∧
      ((∃ p, prev = some p ∧ c = p) ∨ c ∈ tiles ∨ c = endPos) ∧
      (room.grid.get c.y c.x = some none ∨
        (c = endPos ∧ ∀ t ∈ tiles, room.grid.get t.y t.x = some none)) := by
  intro tiles
  induction tiles with
  | nil =>
    intro prev h hprev
    simp only [moveWalk] at h
    cases hsw : swap room start endPos with
    | panic => rw [hsw] at h; exact absurd h (by simp)
    | error e' => rw [hsw] at h; exact absurd h (by simp)
    | ok room'' =>
      rw [hsw] at h
      simp only [Prod.mk.injEq, MoveOutcome.ok.injEq] at h
      refine ⟨endPos, ?_, Or.inr (Or.inr rfl), Or.inr ⟨rfl, by simp⟩⟩
      rw [hsw, h.2]
  | cons tile rest ih =>
    intro prev h hprev
    simp only [moveWalk] at h
    cases hget : room.grid.get tile.y tile.x with
    | none =>
      rw [hget] at h
      cases prev with
      | none => exact absurd h (by simp)
      | some p =>
        simp only at h
        cases hsw : swap room start p with
        | panic => rw [hsw] at h; exact absurd h (by simp)
        | error e' => rw [hsw] at h; exact absurd h (by simp)
        | ok room'' =>
          rw [hsw] at h
          simp only [Prod.mk.injEq, MoveOutcome.ok.injEq] at h
          refine ⟨p, ?_, Or.inl ⟨p, rfl, rfl⟩, Or.inl (hprev p rfl)⟩
          rw [hsw, h.2]
    | some o =>
      cases o with
      | none =>
        rw [hget] at h
        obtain ⟨c, hc1, hc2, hc3⟩ := ih h (by
          intro p hp
          cases hp
          exact hget)
        refine ⟨c, hc1, ?_, ?_⟩
        · rcases hc2 with ⟨p, hp1, hp2⟩ | hc2 | hc2
          · cases hp1
            exact Or.inr (Or.inl (List.mem_cons.mpr (Or.inl hp2)))
          · exact Or.inr (Or.inl (List.mem_cons_of_mem _ hc2))
          · exact Or.inr (Or.inr hc2)
        · rcases hc3 with hc3 | ⟨hc3, hc4⟩
          · exact Or.inl hc3
          · refine Or.inr ⟨hc3, ?_⟩
            intro t ht
            rcases List.mem_cons.mp ht with ht | ht
            · subst ht; exact hget
            · exact hc4 t ht
      | some occ =>
        rw [hget] at h
        cases prev with
        | none => exact absurd h (by simp)
        | some p =>
          simp only at h
          cases hsw : swap room start p with
          | panic => rw [hsw] at h; exact absurd h (by simp)
          | error e' => rw [hsw] at h; exact absurd h (by simp)
          | ok room'' =>
            rw [hsw] at h
            simp only [Prod.mk.injEq, MoveOutcome.ok.injEq] at h
            refine ⟨p, ?_, Or.inl ⟨p, rfl, rfl⟩, Or.inl (hprev p rfl)⟩
            rw [hsw, h.2]

/-! Arithmetic facts about the wrapping `usize` model and the tile paths. -/

theorem mem_rustRange {n a b : Nat} : n ∈ rustRange a b ↔ a ≤ n ∧ n < b := by
  unfold rustRange
  rw [List.mem_range'_1]
  omega

theorem uadd_eq {a b : Nat} (h : a + b < USIZE) : uadd a b = a + b := by
  simp [uadd, Nat.mod_eq_of_lt h]

theorem usub_eq {a b : Nat} (hb : b ≤ a) (ha : a < USIZE) : usub a b = a - b := by
  simp only [usub, USIZE] at *
  omega

theorem uadd_ne {a b : Nat} (ha : a < USIZE) (hb1 : 1 ≤ b) (hb : b < USIZE) :
    uadd a b ≠ a := by
  simp only [uadd, USIZE] at *
  omega

theorem usub_ne {a b : Nat} (ha : a < USIZE) (hb1 : 1 ≤ b) (hb : b < USIZE) :
    usub a b ≠ a := by
  simp only [usub, USIZE] at *
  omega

theorem uadd_lt {a b : Nat} : uadd a b < USIZE := by
  simp only [uadd, USIZE]
  omega

theorem usub_lt {a b : Nat} : usub a b < USIZE := by
  simp only [usub, USIZE]
  omega

/-- Every traversed tile differs from the start position (each tile moves
at least one step along the requested axis, in every direction, wrapping
included). -/
theorem computeMove_tiles_ne_start {start : Position} {mv : Movement} :
    ∀ t ∈ (computeMove start mv).2, t ≠ start := by
  intro t ht
  cases hdir : mv.direction <;>
    simp only [computeMove, hdir, List.mem_map, List.mem_reverse] at ht <;>
    obtain ⟨z, hz, hzt⟩ := ht <;>
    rw [mem_rustRange] at hz <;>
    subst hzt <;>
    intro hh <;>
    cases start <;>
    simp_all <;>
    omega

/-- The target cell also differs from the start position for every `usize`
distance of at least one. -/
theorem computeMove_end_ne_start {start : Position} {mv : Movement}
    (hx : start.x < USIZE) (hy : start.y < USIZE)
    (hd1 : 1 ≤ mv.distance) (hd : mv.distance < USIZE) :
    (computeMove start mv).1 ≠ start := by
  cases hdir : mv.direction <;> simp only [computeMove, hdir] <;> intro hh <;> cases start
  · exact uadd_ne hy hd1 hd (congrArg Position.y hh)
  · exact usub_ne hy hd1 hd (congrArg Position.y hh)
  · exact usub_ne hx hd1 hd (congrArg Position.x hh)
  · exact uadd_ne hx hd1 hd (congrArg Position.x hh)

/-- For the non-`Right` directions, when the `usize` arithmetic does not
wrap, the target cell is the last traversed tile. -/
theorem computeMove_end_mem_tiles {start : Position} {mv : Movement}
    (hd1 : 1 ≤ mv.distance)
    (h : match mv.direction with
      | .up => start.y + mv.distance < USIZE
      | .down => mv.distance ≤ start.y ∧ start.y < USIZE
      | .left => mv.distance ≤ start.x ∧ start.x < USIZE
      | .right => False) :
    (computeMove start mv).1 ∈ (computeMove start mv).2 := by
  obtain ⟨d, dir⟩ := mv
  simp only at hd1 h
  cases dir
  · simp only [computeMove, List.mem_map]
    refine ⟨start.y + d - 1, ?_, ?_⟩
    · rw [mem_rustRange, uadd_eq h]
      omega
    · have he : start.y + d - 1 + 1 = start.y + d := by omega
      rw [he, uadd_eq h]
  · simp only [computeMove, List.mem_map, List.mem_reverse]
    refine ⟨start.y - d, ?_, ?_⟩
    · rw [mem_rustRange, usub_eq h.1 h.2]
      omega
    · rw [usub_eq h.1 h.2]
  · simp only [computeMove, List.mem_map, List.mem_reverse]
    refine ⟨start.x - d, ?_, ?_⟩
    · rw [mem_rustRange, usub_eq h.1 h.2]
      omega
    · rw [usub_eq h.1 h.2]
  · exact absurd h not_false

/-! The committed swap preserves the consistency invariant. -/

theorem consistent_after_swap {room room' : GridRoom} {name : String} {start c : Position}
    (hwf : room.wf) (hcons : consistentRoom room)
    (hmem : (name, start) ∈ room.mobile_entities)
    (hempty : room.grid.get c.y c.x = some none)
    (hne : ¬(c.y = start.y ∧ c.x = start.x))
    (hsw : swap room start c = .ok room') :
    room'.wf ∧ consistentRoom room' := by
  obtain ⟨⟨hl, hrU, hcU⟩, hsorted⟩ := hwf
  obtain ⟨hstart_cell, hstart_uniq⟩ := hcons _ hmem
  obtain ⟨X, cc, hX, hcc, hroom'⟩ := swap_ok_elim hsw
  have hXname : X = ⟨name⟩ := by
    have h := hX.symm.trans hstart_cell
    simpa using h
  subst hXname
  subst hroom'
  have hsb : start.y < room.grid.rows ∧ start.x < room.grid.cols :=
    Grid.get_bounds hstart_cell
  have hcb : c.y < room.grid.rows ∧ c.x < room.grid.cols := Grid.get_bounds hempty
  have hg1l : (room.grid.set c.y c.x (some (⟨name⟩ : Entity))).cells.length =
      (room.grid.set c.y c.x (some (⟨name⟩ : Entity))).rows *
        (room.grid.set c.y c.x (some (⟨name⟩ : Entity))).cols := by
    rw [Grid.set_length]
    exact hl
  have hG'start :
      (swapRoom room ⟨name⟩ start c).grid.get start.y start.x = some none :=
    Grid.get_set_self hg1l hsb.1 hsb.2 none
  have hG'c :
      (swapRoom room ⟨name⟩ start c).grid.get c.y c.x = some (some ⟨name⟩) := by
    show ((room.grid.set c.y c.x (some (⟨name⟩ : Entity))).set start.y start.x none).get
      c.y c.x = some (some ⟨name⟩)
    rw [@Grid.get_set_ne (room.grid.set c.y c.x (some (⟨name⟩ : Entity)))
      start.y start.x c.y c.x none hsb.2 hne]
    exact Grid.get_set_self hl hcb.1 hcb.2 _
  have hG'other : ∀ r c', ¬(r = start.y ∧ c' = start.x) → ¬(r = c.y ∧ c' = c.x) →
      (swapRoom room ⟨name⟩ start c).grid.get r c' = room.grid.get r c' := by
    intro r c' h1 h2
    show ((room.grid.set c.y c.x (some (⟨name⟩ : Entity))).set start.y start.x none).get
      r c' = room.grid.get r c'
    rw [@Grid.get_set_ne (room.grid.set c.y c.x (some (⟨name⟩ : Entity)))
      start.y start.x r c' none hsb.2 h1,
      @Grid.get_set_ne room.grid c.y c.x r c' (some (⟨name⟩ : Entity)) hcb.2 h2]
  constructor
  · refine ⟨⟨?_, hrU, hcU⟩, keysSorted_insert hsorted⟩
    simp only [swapRoom, Grid.set_length]
    exact hl
  · intro kp hkp
    obtain ⟨a, b⟩ := kp
    rcases mem_mapInsert_sorted hsorted hkp with ⟨ha, hb⟩ | ⟨hmem', hane⟩
    · subst ha
      rw [hb]
      refine ⟨hG'c, ?_⟩
      intro r hr c' hc' hgrc
      by_cases h1 : r = start.y ∧ c' = start.x
      · obtain ⟨h1a, h1b⟩ := h1
        subst h1a
        subst h1b
        rw [hG'start] at hgrc
        exact absurd hgrc (by simp)
      · by_cases h2 : r = c.y ∧ c' = c.x
        · exact h2
        · rw [hG'other r c' h1 h2] at hgrc
          exact absurd (hstart_uniq r hr c' hc' hgrc) h1
    · obtain ⟨hb_cell, hb_uniq⟩ := hcons _ hmem'
      have hbs : ¬(b.y = start.y ∧ b.x = start.x) := by
        intro hh
        rw [hh.1, hh.2] at hb_cell
        have h := hb_cell.symm.trans hstart_cell
        simp only [Option.some.injEq, Entity.mk.injEq] at h
        exact hane h
      have hbc : ¬(b.y = c.y ∧ b.x = c.x) := by
        intro hh
        rw [hh.1, hh.2] at hb_cell
        have h := hb_cell.symm.trans hempty
        simp at h
      refine ⟨?_, ?_⟩
      · show (swapRoom room ⟨name⟩ start c).grid.get b.y b.x = some (some ⟨a⟩)
        rw [hG'other b.y b.x hbs hbc]
        exact hb_cell
      · intro r hr c' hc' hgrc
        by_cases h1 : r = start.y ∧ c' = start.x
        · obtain ⟨h1a, h1b⟩ := h1
          subst h1a
          subst h1b
          rw [hG'start] at hgrc
          exact absurd hgrc (by simp)
        · by_cases h2 : r = c.y ∧ c' = c.x
          · obtain ⟨h2a, h2b⟩ := h2
            subst h2a
            subst h2b
            rw [hG'c] at hgrc
            simp only [Option.some.injEq, Entity.mk.injEq] at hgrc
            exact absurd hgrc.symm hane
          · rw [hG'other r c' h1 h2] at hgrc
            exact hb_uniq r hr c' hc' hgrc

/-- Every `Ok` outcome of `move_entity` is produced by a single successful
`swap` from the recorded start to a committed tile that is either a
traversed tile or the computed target. -/
theorem move_ok_committed {room room' : GridRoom} {e : Entity} {mv : Movement}
    {start : Position} {r : MoveResult}
    (hs : mapGet e.name room.mobile_entities = some start)
    (hmv : moveEntity room e mv = (.ok r, room')) :
    ∃ c, swap room start c = .ok room' ∧
      (c ∈ (computeMove start mv).2 ∨ c = (computeMove start mv).1) ∧
      (room.grid.get c.y c.x = some none ∨
        (c = (computeMove start mv).1 ∧
          ∀ t ∈ (computeMove start mv).2, room.grid.get t.y t.x = some none)) := by
  unfold moveEntity at hmv
  rw [hs] at hmv
  obtain ⟨c, h1, h2, h3⟩ := moveWalk_ok_elim hmv (by intro p hp; cases hp)
  refine ⟨c, h1, ?_, h3⟩
  rcases h2 with ⟨p, hp, _⟩ | h2 | h2
  · cases hp
  · exact Or.inl h2
  · exact Or.inr h2

/-! Concrete rooms used in the closed evaluation theorems below. -/

/-- A 5×5 room with mobile entity `A` at `(0, 4)`. -/
def roomR1 : GridRoom := (addEntity (GridRoom.new "R" ⟨5, 5⟩) ⟨"A"⟩ ⟨0, 4⟩ false).2

/-- A 5×5 room with mobile `A` at `(2, 2)` and mobile `B` at `(2, 3)`. -/
def roomR2 : GridRoom :=
  (addEntity (addEntity (GridRoom.new "R" ⟨5, 5⟩) ⟨"A"⟩ ⟨2, 2⟩ false).2 ⟨"B"⟩ ⟨2, 3⟩ false).2

/-- A 3×3 room with mobile entity `A` at `(1, 1)`. -/
def roomR3 : GridRoom := (addEntity (GridRoom.new "R" ⟨3, 3⟩) ⟨"A"⟩ ⟨1, 1⟩ false).2

/-- A 5×5 room with mobile entity `A` at `(3, 0)`. -/
def roomR4 : GridRoom := (addEntity (GridRoom.new "R" ⟨5, 5⟩) ⟨"A"⟩ ⟨3, 0⟩ false).2

/-- A 5×5 room with mobile entity `A` at `(2, 0)`. -/
def roomR5 : GridRoom := (addEntity (GridRoom.new "R" ⟨5, 5⟩) ⟨"A"⟩ ⟨2, 0⟩ false).2

/-- An empty 3×3 room. -/
def roomE : GridRoom := GridRoom.new "R" ⟨3, 3⟩

/-- C1: the bounded-slide claim fails on the code. With mobile `A` at
`(0, 4)` on a 5×5 grid, the single-tile Right path `[(1, 4)]` is in
bounds and empty, so the claim demands `Ok(Success)` with `A` at `(1, 4)`;
the code (whose Right range bound reads `start.y + distance`) walks
`(1,4),(2,4),(3,4),(4,4),(5,4)`, exits bounds, and returns `Ok(Failure)`
with `A` at `(4, 4)`. -/
theorem move_right_bounded_slide_eval :
    roomR1.grid.get 4 1 = some none ∧
    (moveEntity roomR1 ⟨"A"⟩ ⟨1, .right⟩).1 = .ok .failure ∧
    mapGet "A" (moveEntity roomR1 ⟨"A"⟩ ⟨1, .right⟩).2.mobile_entities = some ⟨4, 4⟩ := by
  refine ⟨by decide, by decide, by decide⟩

/-- C2: the collision-stop claim fails on the code. With mobile `A` at
`(2, 2)` and `B` at `(2, 3)` on a 5×5 grid, moving `A` Up by 1 finds the
first path tile occupied; the claim demands `Ok(Collision([A,B]))` with
`A` left at `(2, 2)`, but the code indexes `traversed_tiles[0 - 1]` and
panics (index out of range after the `usize` wrap). -/
theorem move_collision_first_tile_panic_eval :
    roomR2.grid.get 3 2 = some (some ⟨"B"⟩) ∧
    moveEntity roomR2 ⟨"A"⟩ ⟨1, .up⟩ = (.panic, roomR2) := by
  refine ⟨by decide, by decide⟩

/-- C3 counterexample: a sequence of two successful `add_entity` calls
breaks index/grid consistency — `B` is placed (statically) onto the cell
recorded for mobile `A`, so `A`'s recorded cell no longer contains `A`. -/
theorem add_overwrite_breaks_consistency :
    consistentRoom roomR3 ∧
    (addEntity roomR3 ⟨"B"⟩ ⟨1, 1⟩ true).1 = .ok () ∧
    ¬ consistentRoom (addEntity roomR3 ⟨"B"⟩ ⟨1, 1⟩ true).2 := by
  refine ⟨by decide, by decide, by decide⟩

/-- C4: the partial out-of-bounds claim fails on the code. With mobile
`A` at `(3, 0)` on a 5×5 grid, moving Right by 3 has a true path
`(4,0),(5,0),(6,0)` whose first tile is in bounds and empty (`K = 1`), so
the claim demands `Ok(Failure)` with `A` at `(4, 0)`; the code's Right
range `start.x..start.y + distance = 3..3` is empty, so it swaps directly
toward the target `(6, 0)`, which is out of bounds, and returns
`Err(OutOfBounds)` leaving the room unchanged. -/
theorem move_right_partial_oob_eval :
    roomR4.grid.get 0 4 = some none ∧
    roomR4.grid.get 0 5 = none ∧
    moveEntity roomR4 ⟨"A"⟩ ⟨3, .right⟩ = (.error .outOfBounds, roomR4) := by
  refine ⟨by decide, by decide, by decide⟩

/-- C5 counterexample: with mobile `A` at `(2, 0)` on a 5×5 grid, moving
Down — whose first path tile is off-grid — with the `usize` distance
`2^64 - 1` does not return `Err(OutOfBounds)`: the unchecked subtraction
wraps, the traversed-tile range is empty, and the code commits `A` to
`(2, 1)` and returns `Ok(Success)`. -/
theorem move_down_wrap_counterexample :
    mapGet "A" roomR5.mobile_entities = some ⟨2, 0⟩ ∧
    (moveEntity roomR5 ⟨"A"⟩ ⟨USIZE - 1, .down⟩).1 = .ok .success ∧
    mapGet "A" (moveEntity roomR5 ⟨"A"⟩ ⟨USIZE - 1, .down⟩).2.mobile_entities =
      some ⟨2, 1⟩ := by
  refine ⟨by decide, by decide, by decide⟩

/-- C7: `add_entity` fails with `OutOfBounds` and mutates nothing exactly
when the position is outside the grid (`x ≥ width` or `y ≥ height`), and
always returns `Ok` on an in-bounds position. -/
theorem add_entity_bounds (room : GridRoom) (e : Entity) (p : Position) (st : Bool) :
    ((room.grid.cols ≤ p.x ∨ room.grid.rows ≤ p.y) →
      addEntity room e p st = (.error .outOfBounds, room)) ∧
    (p.x < room.grid.cols → p.y < room.grid.rows →
      (addEntity room e p st).1 = .ok ()) := by
  constructor
  · intro h
    have hnone : room.grid.get p.y p.x = none := by
      unfold Grid.get
      rw [if_neg]
      omega
    unfold addEntity
    rw [hnone]
  · intro hx hy
    unfold addEntity
    rw [Grid.get_of_bounds hy hx]
    cases st <;> simp

/-- Witness for the placement-bounds theorem at concrete inputs. -/
theorem add_entity_bounds_witness :
    addEntity roomE ⟨"A"⟩ ⟨5, 1⟩ false = (.error .outOfBounds, roomE) ∧
    (addEntity roomE ⟨"A"⟩ ⟨1, 1⟩ false).1 = .ok () :=
  ⟨(add_entity_bounds roomE ⟨"A"⟩ ⟨5, 1⟩ false).1 (by decide),
   (add_entity_bounds roomE ⟨"A"⟩ ⟨1, 1⟩ false).2 (by decide) (by decide)⟩

/-- C9: `move_entity` on an entity absent from the mobile index returns
`Err(OutOfBounds)` and leaves the room unchanged. -/
theorem move_unregistered_error (room : GridRoom) (e : Entity) (mv : Movement)
    (h : mapGet e.name room.mobile_entities = none) :
    moveEntity room e mv = (.error .outOfBounds, room) := by
  unfold moveEntity
  rw [h]

/-- Witness for the unregistered-entity theorem at a concrete input. -/
theorem move_unregistered_error_witness :
    mapGet "Ghost" roomE.mobile_entities = none ∧
    moveEntity roomE ⟨"Ghost"⟩ ⟨1, .up⟩ = (.error .outOfBounds, roomE) :=
  ⟨rfl, move_unregistered_error roomE ⟨"Ghost"⟩ ⟨1, .up⟩ rfl⟩

/-- C5 (amended): for a mobile entity whose recorded cell is in bounds and
occupied, a movement of distance at least 1 whose first path tile is
off-grid returns `Err(OutOfBounds)` and leaves the room unchanged,
provided the distance is at most `2^64 - height` (vertical moves) or
`2^64 - width` (horizontal moves), so the `usize` arithmetic cannot wrap
back onto the grid. -/
theorem first_step_oob_error (room : GridRoom) (e X : Entity) (mv : Movement)
    (start : Position)
    (hs : mapGet e.name room.mobile_entities = some start)
    (hcell : room.grid.get start.y start.x = some (some X))
    (hd1 : 1 ≤ mv.distance)
    (hoob : match mv.direction with
      | .up => room.grid.rows ≤ start.y + 1 ∧ mv.distance ≤ USIZE - room.grid.rows
      | .down => start.y = 0 ∧ mv.distance ≤ USIZE - room.grid.rows
      | .left => start.x = 0 ∧ mv.distance ≤ USIZE - room.grid.cols
      | .right => room.grid.cols ≤ start.x + 1 ∧ mv.distance ≤ USIZE - room.grid.cols) :
    moveEntity room e mv = (.error .outOfBounds, room) := by
  have hb : start.y < room.grid.rows ∧ start.x < room.grid.cols := Grid.get_bounds hcell
  unfold moveEntity
  rw [hs]
  obtain ⟨d, dir⟩ := mv
  simp only at hd1 hoob
  have hswOOB : ∀ endPos : Position,
      room.grid.get endPos.y endPos.x = none →
      moveWalk room e start endPos none [] = (.error .outOfBounds, room) := by
    intro endPos hend
    have hsw : swap room start endPos = .error .outOfBounds := by
      unfold swap
      rw [hcell, hend]
    simp only [moveWalk, hsw]
  cases dir
  case up =>
    obtain ⟨h1, h2⟩ := hoob
    have hyd : start.y + d < USIZE := by
      have hr := hb.1
      simp only [USIZE] at h2 ⊢
      omega
    simp only [computeMove]
    obtain ⟨k, rfl⟩ : ∃ k, d = k + 1 := ⟨d - 1, by omega⟩
    have htiles : rustRange start.y (uadd start.y (k + 1)) =
        start.y :: List.range' (start.y + 1) k := by
      unfold rustRange
      rw [uadd_eq hyd]
      have hsub : start.y + (k + 1) - start.y = k + 1 := by omega
      rw [hsub, List.range'_succ]
    rw [htiles]
    simp only [List.map_cons, moveWalk]
    have hnone : room.grid.get (start.y + 1) start.x = none := by
      unfold Grid.get
      rw [if_neg]
      omega
    simp only [hnone]
  case down =>
    obtain ⟨h1, h2⟩ := hoob
    simp only [computeMove]
    have hempty : rustRange (usub start.y d) start.y = [] := by
      unfold rustRange
      rw [h1]
      simp
    rw [hempty]
    simp only [List.reverse_nil, List.map_nil]
    apply hswOOB
    have hrow : usub start.y d = USIZE - d := by
      rw [h1]
      simp only [usub, USIZE]
      omega
    unfold Grid.get
    rw [if_neg]
    rw [hrow]
    have hr := hb.1
    simp only [USIZE] at h2 ⊢
    omega
  case left =>
    obtain ⟨h1, h2⟩ := hoob
    simp only [computeMove]
    have hempty : rustRange (usub start.x d) start.x = [] := by
      unfold rustRange
      rw [h1]
      simp
    rw [hempty]
    simp only [List.reverse_nil, List.map_nil]
    apply hswOOB
    have hcol : usub start.x d = USIZE - d := by
      rw [h1]
      simp only [usub, USIZE]
      omega
    unfold Grid.get
    rw [if_neg]
    rw [hcol]
    have hc := hb.2
    simp only [USIZE] at h2 ⊢
    omega
  case right =>
    obtain ⟨h1, h2⟩ := hoob
    have hxd : start.x + d < USIZE := by
      have hc := hb.2
      simp only [USIZE] at h2 ⊢
      omega
    simp only [computeMove]
    cases hk : uadd start.y d - start.x with
    | zero =>
      have hempty : rustRange start.x (uadd start.y d) = [] := by
        unfold rustRange
        rw [hk]
        simp
      rw [hempty]
      simp only [List.map_nil]
      apply hswOOB
      unfold Grid.get
      rw [if_neg]
      rw [uadd_eq hxd]
      dsimp only
      omega
    | succ k =>
      have htiles : rustRange start.x (uadd start.y d) =
          start.x :: List.range' (start.x + 1) k := by
        unfold rustRange
        rw [hk, List.range'_succ]
      rw [htiles]
      simp only [List.map_cons, moveWalk]
      have hnone : room.grid.get start.y (start.x + 1) = none := by
        unfold Grid.get
        rw [if_neg]
        omega
      simp only [hnone]

/-- Witness for the amended first-step out-of-bounds theorem: `A` at
`(0, 4)` on a 5×5 grid moving Up by 1. -/
theorem first_step_oob_error_witness :
    mapGet "A" roomR1.mobile_entities = some ⟨0, 4⟩ ∧
    moveEntity roomR1 ⟨"A"⟩ ⟨1, .up⟩ = (.error .outOfBounds, roomR1) :=
  ⟨by decide,
   first_step_oob_error roomR1 ⟨"A"⟩ ⟨"A"⟩ ⟨1, .up⟩ ⟨0, 4⟩ (by decide) (by decide)
     (by decide) (by decide)⟩

/-- C6: after any `Ok` outcome of `move_entity` on a consistent room (with
a positive `usize` distance), there is a single committed cell `q`: the
moved entity occupies exactly `q`, its prior cell is cleared, every grid
cell other than the prior and committed cells is unchanged, and every
index entry other than the moved entity's is unchanged. -/
theorem move_ok_single_occupancy_frame (room room' : GridRoom) (e : Entity)
    (mv : Movement) (res : MoveResult) (start : Position)
    (hwf : room.wf) (hcons : consistentRoom room)
    (hs : mapGet e.name room.mobile_entities = some start)
    (hd1 : 1 ≤ mv.distance) (hdU : mv.distance < USIZE)
    (hmv : moveEntity room e mv = (.ok res, room')) :
    ∃ q : Position,
      room'.grid.get q.y q.x = some (some e) ∧
      mapGet e.name room'.mobile_entities = some q ∧
      room'.grid.get start.y start.x = some none ∧
      ¬(q.y = start.y ∧ q.x = start.x) ∧
      (∀ r c, ¬(r = q.y ∧ c = q.x) → ¬(r = start.y ∧ c = start.x) →
        room'.grid.get r c = room.grid.get r c) ∧
      (∀ n, n ≠ e.name → mapGet n room'.mobile_entities = mapGet n room.mobile_entities) ∧
      (∀ r c, r < room'.grid.rows → c < room'.grid.cols →
        room'.grid.get r c = some (some e) → r = q.y ∧ c = q.x) := by
  obtain ⟨ename⟩ := e
  obtain ⟨⟨hl, hrU, hcU⟩, hsorted⟩ := hwf
  have hmem : (ename, start) ∈ room.mobile_entities := mapGet_mem hs
  obtain ⟨hstart_cell, hstart_uniq⟩ := hcons _ hmem
  have hsb : start.y < room.grid.rows ∧ start.x < room.grid.cols :=
    Grid.get_bounds hstart_cell
  have hx : start.x < USIZE := Nat.lt_trans hsb.2 hcU
  have hy : start.y < USIZE := Nat.lt_trans hsb.1 hrU
  obtain ⟨c, hsw, hloc, _⟩ := move_ok_committed hs hmv
  have hcs : c ≠ start := by
    rcases hloc with hloc | hloc
    · exact computeMove_tiles_ne_start c hloc
    · rw [hloc]
      exact computeMove_end_ne_start hx hy hd1 hdU
  have hne : ¬(c.y = start.y ∧ c.x = start.x) := by
    intro hh
    apply hcs
    obtain ⟨cx, cy⟩ := c
    obtain ⟨sx, sy⟩ := start
    simp only at hh
    rw [hh.1, hh.2]
  obtain ⟨X, cc, hX, hcc, hroom'⟩ := swap_ok_elim hsw
  have hXname : X = ⟨ename⟩ := by
    have h := hX.symm.trans hstart_cell
    simpa using h
  subst hXname
  subst hroom'
  have hcb : c.y < room.grid.rows ∧ c.x < room.grid.cols := Grid.get_bounds hcc
  have hg1l : (room.grid.set c.y c.x (some (⟨ename⟩ : Entity))).cells.length =
      (room.grid.set c.y c.x (some (⟨ename⟩ : Entity))).rows *
        (room.grid.set c.y c.x (some (⟨ename⟩ : Entity))).cols := by
    rw [Grid.set_length]
    exact hl
  have hG'start :
      (swapRoom room ⟨ename⟩ start c).grid.get start.y start.x = some none :=
    Grid.get_set_self hg1l hsb.1 hsb.2 none
  have hG'c :
      (swapRoom room ⟨ename⟩ start c).grid.get c.y c.x = some (some ⟨ename⟩) := by
    show ((room.grid.set c.y c.x (some (⟨ename⟩ : Entity))).set start.y start.x none).get
      c.y c.x = some (some ⟨ename⟩)
    rw [@Grid.get_set_ne (room.grid.set c.y c.x (some (⟨ename⟩ : Entity)))
      start.y start.x c.y c.x none hsb.2 hne]
    exact Grid.get_set_self hl hcb.1 hcb.2 _
  have hG'other : ∀ r c', ¬(r = start.y ∧ c' = start.x) → ¬(r = c.y ∧ c' = c.x) →
      (swapRoom room ⟨ename⟩ start c).grid.get r c' = room.grid.get r c' := by
    intro r c' h1 h2
    show ((room.grid.set c.y c.x (some (⟨ename⟩ : Entity))).set start.y start.x none).get
      r c' = room.grid.get r c'
    rw [@Grid.get_set_ne (room.grid.set c.y c.x (some (⟨ename⟩ : Entity)))
      start.y start.x r c' none hsb.2 h1,
      @Grid.get_set_ne room.grid c.y c.x r c' (some (⟨ename⟩ : Entity)) hcb.2 h2]
  refine ⟨c, hG'c, mapGet_insert_self .., hG'start, hne, ?_, ?_, ?_⟩
  · intro r c' h1 h2
    exact hG'other r c' h2 (by
      intro hh
      exact h1 ⟨hh.1, hh.2⟩)
  · intro n hn
    exact mapGet_insert_ne ename n c room.mobile_entities hn
  · intro r c' hr hc' hgrc
    by_cases h1 : r = start.y ∧ c' = start.x
    · obtain ⟨h1a, h1b⟩ := h1
      subst h1a
      subst h1b
      rw [hG'start] at hgrc
      exact absurd hgrc (by simp)
    · by_cases h2 : r = c.y ∧ c' = c.x
      · exact h2
      · rw [hG'other r c' h1 h2] at hgrc
        exact absurd (hstart_uniq r hr c' hc' hgrc) h1

/-- The room after moving `A` up by one tile in the 3×3 room. -/
def roomR3up : GridRoom := (moveEntity roomR3 ⟨"A"⟩ ⟨1, .up⟩).2

/-- Witness for the single-occupancy/frame theorem: `A` at `(1, 1)` in a
3×3 room moved Up by 1 commits to `(1, 2)`. -/
theorem move_ok_single_occupancy_frame_witness :
    ∃ q : Position,
      roomR3up.grid.get q.y q.x = some (some ⟨"A"⟩) ∧
      mapGet "A" roomR3up.mobile_entities = some q ∧
      roomR3up.grid.get 1 1 = some none ∧
      ¬(q.y = 1 ∧ q.x = 1) ∧
      (∀ r c, ¬(r = q.y ∧ c = q.x) → ¬(r = 1 ∧ c = 1) →
        roomR3up.grid.get r c = roomR3.grid.get r c) ∧
      (∀ n, n ≠ "A" → mapGet n roomR3up.mobile_entities = mapGet n roomR3.mobile_entities) ∧
      (∀ r c, r < roomR3up.grid.rows → c < roomR3up.grid.cols →
        roomR3up.grid.get r c = some (some ⟨"A"⟩) → r = q.y ∧ c = q.x) :=
  move_ok_single_occupancy_frame roomR3 roomR3up ⟨"A"⟩ ⟨1, .up⟩ .success ⟨1, 1⟩
    (by decide) (by decide) (by decide) (by decide) (by decide) (by decide)

/-! Consistency preservation (claim C3). -/

/-- An operation issued against a room. -/
inductive Op
  | add (e : Entity) (p : Position) (is_static : Bool)
  | move (e : Entity) (mv : Movement)

/-- Run an operation, returning the updated room when the call succeeds
(returns `Ok`), and `none` on an error or panic. -/
def stepOk (room : GridRoom) : Op → Option GridRoom
  | .add e p st =>
    match addEntity room e p st with
    | (.ok _, room') => some room'
    | (.error _, _) => none
  | .move e mv =>
    match moveEntity room e mv with
    | (.ok _, room') => some room'
    | (.panic, _) => none
    | (.error _, _) => none

/-- The guard under which a single operation provably preserves
consistency: placements target an empty cell with an entity that is
nowhere on the grid; moves avoid the Right direction (whose traversal
range the source computes from the wrong coordinate) and keep the `usize`
arithmetic of the path in range. -/
def opGood (room : GridRoom) : Op → Prop
  | .add e p _ =>
    room.grid.get p.y p.x = some none ∧
    ∀ r, r < room.grid.rows → ∀ c, c < room.grid.cols →
      room.grid.get r c ≠ some (some e)
  | .move e mv =>
    1 ≤ mv.distance ∧ mv.distance < USIZE ∧
    (match mapGet e.name room.mobile_entities with
     | none => True
     | some start =>
       match mv.direction with
       | .up => start.y + mv.distance < USIZE
       | .down => mv.distance ≤ start.y
       | .left => mv.distance ≤ start.x
       | .right => False)

theorem consistent_after_add {room room' : GridRoom} {e : Entity} {p : Position}
    {st : Bool}
    (hwf : room.wf) (hcons : consistentRoom room)
    (hempty : room.grid.get p.y p.x = some none)
    (hfresh : ∀ r, r < room.grid.rows → ∀ c, c < room.grid.cols →
      room.grid.get r c ≠ some (some e))
    (hadd : addEntity room e p st = (.ok (), room')) :
    room'.wf ∧ consistentRoom room' := by
  obtain ⟨ename⟩ := e
  obtain ⟨⟨hl, hrU, hcU⟩, hsorted⟩ := hwf
  have hb : p.y < room.grid.rows ∧ p.x < room.grid.cols := Grid.get_bounds hempty
  unfold addEntity at hadd
  rw [hempty] at hadd
  have hold_entry : ∀ kp ∈ room.mobile_entities, kp.1 ≠ ename := by
    intro kp hkp he
    obtain ⟨hk_cell, _⟩ := hcons _ hkp
    have hkb := Grid.get_bounds hk_cell
    exact hfresh _ hkb.1 _ hkb.2 (he ▸ hk_cell)
  have hold_ne_p : ∀ kp ∈ room.mobile_entities,
      ¬(kp.2.y = p.y ∧ kp.2.x = p.x) := by
    intro kp hkp hh
    obtain ⟨hk_cell, _⟩ := hcons _ hkp
    rw [hh.1, hh.2] at hk_cell
    have h := hk_cell.symm.trans hempty
    simp at h
  have hG1self : (room.grid.set p.y p.x (some (⟨ename⟩ : Entity))).get p.y p.x =
      some (some ⟨ename⟩) := Grid.get_set_self hl hb.1 hb.2 _
  have hG1other : ∀ r c', ¬(r = p.y ∧ c' = p.x) →
      (room.grid.set p.y p.x (some (⟨ename⟩ : Entity))).get r c' =
        room.grid.get r c' := by
    intro r c' h1
    exact @Grid.get_set_ne room.grid p.y p.x r c' (some (⟨ename⟩ : Entity)) hb.2 h1
  cases st
  · rw [if_neg (by simp)] at hadd
    simp only [Prod.mk.injEq, true_and] at hadd
    subst hadd
    refine ⟨⟨⟨?_, hrU, hcU⟩, keysSorted_insert hsorted⟩, ?_⟩
    · rw [Grid.set_length]
      exact hl
    · intro kp hkp
      obtain ⟨a, b⟩ := kp
      rcases mem_mapInsert_sorted hsorted hkp with ⟨ha, hb'⟩ | ⟨hmem', hane⟩
      · subst ha
        rw [hb']
        refine ⟨hG1self, ?_⟩
        intro r hr c' hc' hgrc
        by_cases h1 : r = p.y ∧ c' = p.x
        · exact h1
        · rw [hG1other r c' h1] at hgrc
          exact absurd hgrc (hfresh r hr c' hc')
      · obtain ⟨hk_cell, hk_uniq⟩ := hcons _ hmem'
        have hbp : ¬(b.y = p.y ∧ b.x = p.x) := hold_ne_p _ hmem'
        refine ⟨?_, ?_⟩
        · show (room.grid.set p.y p.x (some (⟨ename⟩ : Entity))).get b.y b.x =
            some (some ⟨a⟩)
          rw [hG1other b.y b.x hbp]
          exact hk_cell
        · intro r hr c' hc' hgrc
          by_cases h1 : r = p.y ∧ c' = p.x
          · obtain ⟨h1a, h1b⟩ := h1
            subst h1a
            subst h1b
            rw [hG1self] at hgrc
            simp only [Option.some.injEq, Entity.mk.injEq] at hgrc
            exact absurd hgrc.symm hane
          · rw [hG1other r c' h1] at hgrc
            exact hk_uniq r hr c' hc' hgrc
  · rw [if_pos rfl] at hadd
    simp only [Prod.mk.injEq, true_and] at hadd
    subst hadd
    refine ⟨⟨⟨?_, hrU, hcU⟩, hsorted⟩, ?_⟩
    · rw [Grid.set_length]
      exact hl
    · intro kp hkp
      obtain ⟨a, b⟩ := kp
      obtain ⟨hk_cell, hk_uniq⟩ := hcons _ hkp
      have hane : a ≠ ename := hold_entry _ hkp
      have hbp : ¬(b.y = p.y ∧ b.x = p.x) := hold_ne_p _ hkp
      refine ⟨?_, ?_⟩
      · show (room.grid.set p.y p.x (some (⟨ename⟩ : Entity))).get b.y b.x =
          some (some ⟨a⟩)
        rw [hG1other b.y b.x hbp]
        exact hk_cell
      · intro r hr c' hc' hgrc
        by_cases h1 : r = p.y ∧ c' = p.x
        · obtain ⟨h1a, h1b⟩ := h1
          subst h1a
          subst h1b
          rw [hG1self] at hgrc
          simp only [Option.some.injEq, Entity.mk.injEq] at hgrc
          exact absurd hgrc.symm hane
        · rw [hG1other r c' h1] at hgrc
          exact hk_uniq r hr c' hc' hgrc

theorem consistent_after_move {room room' : GridRoom} {e : Entity} {mv : Movement}
    {res : MoveResult} {start : Position}
    (hwf : room.wf) (hcons : consistentRoom room)
    (hs : mapGet e.name room.mobile_entities = some start)
    (hd1 : 1 ≤ mv.distance) (hdU : mv.distance < USIZE)
    (harith : match mv.direction with
      | .up => start.y + mv.distance < USIZE
      | .down => mv.distance ≤ start.y
      | .left => mv.distance ≤ start.x
      | .right => False)
    (hmv : moveEntity room e mv = (.ok res, room')) :
    room'.wf ∧ consistentRoom room' := by
  have hmem : (e.name, start) ∈ room.mobile_entities := mapGet_mem hs
  obtain ⟨hstart_cell, _⟩ := hcons _ hmem
  have hsb : start.y < room.grid.rows ∧ start.x < room.grid.cols :=
    Grid.get_bounds hstart_cell
  have hx : start.x < USIZE := Nat.lt_trans hsb.2 hwf.1.2.2
  have hy : start.y < USIZE := Nat.lt_trans hsb.1 hwf.1.2.1
  obtain ⟨c, hsw, hloc, hemp⟩ := move_ok_committed hs hmv
  have hcs : c ≠ start := by
    rcases hloc with hloc | hloc
    · exact computeMove_tiles_ne_start c hloc
    · rw [hloc]
      exact computeMove_end_ne_start hx hy hd1 hdU
  have hne : ¬(c.y = start.y ∧ c.x = start.x) := by
    intro hh
    apply hcs
    obtain ⟨cx, cy⟩ := c
    obtain ⟨sx, sy⟩ := start
    simp only at hh
    rw [hh.1, hh.2]
  have hcell_empty : room.grid.get c.y c.x = some none := by
    rcases hemp with h | ⟨hc_end, hall⟩
    · exact h
    · rw [hc_end]
      refine hall _ (computeMove_end_mem_tiles hd1 ?_)
      cases hdir : mv.direction <;> rw [hdir] at harith
      · exact harith
      · exact ⟨harith, hy⟩
      · exact ⟨harith, hx⟩
      · exact absurd harith not_false
  exact consistent_after_swap ⟨hwf.1, hwf.2⟩ hcons hmem hcell_empty hne hsw

/-- C3 (amended): index/grid consistency is an invariant of every
successful guarded operation: an `add_entity` into an empty cell with an
entity not already on the grid, or a `move_entity` returning `Ok` in a
direction other than Right whose `usize` path arithmetic stays in range.
It is therefore preserved along every sequence of such operations. -/
theorem consistency_preserved (room room' : GridRoom) (op : Op)
    (hwf : room.wf) (hcons : consistentRoom room)
    (hgood : opGood room op) (hstep : stepOk room op = some room') :
    room'.wf ∧ consistentRoom room' := by
  cases op with
  | add e p st =>
    obtain ⟨hempty, hfresh⟩ := hgood
    simp only [stepOk] at hstep
    rcases hadd : addEntity room e p st with ⟨r1, room''⟩
    rw [hadd] at hstep
    cases r1 with
    | error err => simp at hstep
    | ok u =>
      cases u
      simp only [Option.some.injEq] at hstep
      subst hstep
      exact consistent_after_add hwf hcons hempty hfresh hadd
  | move e mv =>
    obtain ⟨hd1, hdU, harith⟩ := hgood
    simp only [stepOk] at hstep
    rcases hmvr : moveEntity room e mv with ⟨r1, room''⟩
    rw [hmvr] at hstep
    cases r1 with
    | panic => simp at hstep
    | error err => simp at hstep
    | ok res =>
      simp only [Option.some.injEq] at hstep
      subst hstep
      cases hsv : mapGet e.name room.mobile_entities with
      | none =>
        rw [move_unregistered_error room e mv hsv] at hmvr
        exact absurd hmvr (by simp)
      | some start =>
        rw [hsv] at harith
        exact consistent_after_move hwf hcons hsv hd1 hdU harith hmvr

/-- Witness for consistency preservation: moving `A` up by one tile in
the 3×3 room preserves well-formedness and consistency. -/
theorem consistency_preserved_witness :
    roomR3up.wf ∧ consistentRoom roomR3up :=
  consistency_preserved roomR3 roomR3up (.move ⟨"A"⟩ ⟨1, .up⟩)
    (by decide) (by decide)
    (by
      simp only [opGood]
      rw [show mapGet "A" roomR3.mobile_entities = some ⟨1, 1⟩ from by decide]
      decide)
    (by decide)

/-- C8: a successful `add_entity` writes the entity into the target cell
(overwriting whatever occupant was there, with no collision check),
leaves every other cell unchanged, and records `entity.name → position`
in the mobile index exactly when `is_static` is false. -/
theorem add_entity_writes (room : GridRoom) (e : Entity) (p : Position) (st : Bool)
    (hl : room.grid.cells.length = room.grid.rows * room.grid.cols)
    (hy : p.y < room.grid.rows) (hx : p.x < room.grid.cols) :
    ∃ room', addEntity room e p st = (.ok (), room') ∧
      room'.grid.get p.y p.x = some (some e) ∧
      (∀ r c, ¬(r = p.y ∧ c = p.x) → room'.grid.get r c = room.grid.get r c) ∧
      (st = true → room'.mobile_entities = room.mobile_entities) ∧
      (st = false → mapGet e.name room'.mobile_entities = some p ∧
        ∀ n, n ≠ e.name → mapGet n room'.mobile_entities = mapGet n room.mobile_entities) := by
  have hg := Grid.get_of_bounds hy hx
  cases st
  · refine ⟨{ room with
        grid := room.grid.set p.y p.x (some e)
        mobile_entities := mapInsert e.name p room.mobile_entities }, ?_, ?_, ?_, ?_, ?_⟩
    · unfold addEntity
      rw [hg]
      rw [if_neg (by simp)]
    · exact Grid.get_set_self hl hy hx _
    · intro r c h
      exact @Grid.get_set_ne room.grid p.y p.x r c (some e) hx h
    · intro h
      exact absurd h (by simp)
    · intro _
      exact ⟨mapGet_insert_self .., fun n hn => mapGet_insert_ne e.name n p _ hn⟩
  · refine ⟨{ room with grid := room.grid.set p.y p.x (some e) }, ?_, ?_, ?_, ?_, ?_⟩
    · unfold addEntity
      rw [hg]
      rw [if_pos rfl]
    · exact Grid.get_set_self hl hy hx _
    · intro r c h
      exact @Grid.get_set_ne room.grid p.y p.x r c (some e) hx h
    · intro _
      rfl
    · intro h
      exact absurd h (by simp)

/-- Witness for the placement-effect theorem: placing `A` at `(1, 2)` in
an empty 3×3 room as a mobile entity. -/
theorem add_entity_writes_witness :
    ∃ room', addEntity roomE ⟨"A"⟩ ⟨1, 2⟩ false = (.ok (), room') ∧
      room'.grid.get 2 1 = some (some ⟨"A"⟩) ∧
      (∀ r c, ¬(r = 2 ∧ c = 1) → room'.grid.get r c = roomE.grid.get r c) ∧
      (false = true → room'.mobile_entities = roomE.mobile_entities) ∧
      (false = false → mapGet "A" room'.mobile_entities = some ⟨1, 2⟩ ∧
        ∀ n, n ≠ "A" → mapGet n room'.mobile_entities = mapGet n roomE.mobile_entities) :=
  add_entity_writes roomE ⟨"A"⟩ ⟨1, 2⟩ false (by decide) (by decide) (by decide)

/-- C10: re-adding an already-indexed mobile entity at a new in-bounds
position overwrites its index entry with the new position, while the old
cell still contains the entity — `add_entity` clears no cell. -/
theorem re_add_leaves_stale_cell (room : GridRoom) (e : Entity) (old newp : Position)
    (hl : room.grid.cells.length = room.grid.rows * room.grid.cols)
    (hold : mapGet e.name room.mobile_entities = some old)
    (hcell : room.grid.get old.y old.x = some (some e))
    (hy : newp.y < room.grid.rows) (hx : newp.x < room.grid.cols)
    (hne : ¬(old.y = newp.y ∧ old.x = newp.x)) :
    ∃ room', addEntity room e newp false = (.ok (), room') ∧
      mapGet e.name room'.mobile_entities = some newp ∧
      room'.grid.get old.y old.x = some (some e) := by
  refine ⟨{ room with
      grid := room.grid.set newp.y newp.x (some e)
      mobile_entities := mapInsert e.name newp room.mobile_entities }, ?_, ?_, ?_⟩
  · unfold addEntity
    rw [Grid.get_of_bounds hy hx]
    rw [if_neg (by simp)]
  · exact mapGet_insert_self ..
  · show (room.grid.set newp.y newp.x (some e)).get old.y old.x = some (some e)
    rw [@Grid.get_set_ne room.grid newp.y newp.x old.y old.x (some e) hx hne]
    exact hcell

/-- Witness for the stale-cell theorem: re-adding `A` (recorded at
`(1, 1)` in the 3×3 room) at `(0, 0)`. -/
theorem re_add_leaves_stale_cell_witness :
    ∃ room', addEntity roomR3 ⟨"A"⟩ ⟨0, 0⟩ false = (.ok (), room') ∧
      mapGet "A" room'.mobile_entities = some ⟨0, 0⟩ ∧
      room'.grid.get 1 1 = some (some ⟨"A"⟩) :=
  re_add_leaves_stale_cell roomR3 ⟨"A"⟩ ⟨1, 1⟩ ⟨0, 0⟩ (by decide) (by decide)
    (by decide) (by decide) (by decide) (by decide)

end BglMaps
